import Mathlib

/-!
Shallow embedding of `src/mlb_props_analyzer.py` (imtayyab05/mlb-props-analyzer).

The ingestion-and-aggregation pipeline of `OddsAPIExcelFetcher` is translated
into executable Lean definitions:

* the fixed 12-entry prop-category list (`__init__`, lines 34-47);
* `process_player_data` (lines 146-172) over an association list that models
  the `unique_players` dict (unique keys, insertion order preserved: a missing
  key is created at the end, an existing key is updated in place);
* the normalization of one raw outcome into the `prop_data` record
  (lines 247-259), fallible because `outcome['name']` and `outcome['price']`
  are raw dict accesses that raise `KeyError` when the field is absent, while
  `description` and `point` use `.get` with defaults;
* the Over/Under bucket routing (lines 261-270).  The `over_props` and
  `under_props` dicts hold exactly the 12 categories as keys for the whole
  run and are only written under the `market_key in self.prop_categories`
  guard, so they are modelled as total functions `String → List PropData`
  that are read and summed only at the 12 category keys;
* the per-event retry loop (lines 220-234), the nested
  bookmaker/market/outcome processing loop (lines 239-270) and the
  rate-limit delay (lines 277-279), producing an explicit trace of fetch
  attempts and sleeps;
* `main` (lines 832-883) over an environment record capturing the oracle
  results of the external calls.

Python floats appearing as prop lines (`point`) are modelled as `Rat`;
American odds (`price`) as `Int`.  A `requests` failure caught inside
`get_event_props` is modelled as the fetch returning no data, while an
exception escaping `get_event_props` (e.g. a JSON decode error) is modelled
as the fetch raising.
-/

/-- The 12 prop categories from `OddsAPIExcelFetcher.__init__` (lines 34-47). -/
def prop_categories : List String :=
  ["batter_home_runs",
   "batter_hits",
   "batter_total_bases",
   "batter_rbis",
   "batter_runs_scored",
   "batter_hits_runs_rbis",
   "batter_singles",
   "batter_strikeouts",
   "pitcher_strikeouts",
   "pitcher_hits_allowed",
   "pitcher_earned_runs",
   "pitcher_outs"]

/-- One scheduled game, as consumed from the event-listing response
(`event['id']`, `event['home_team']`, `event['away_team']`,
`event['commence_time']`, lines 204-207). -/
structure Event where
  id : String
  home_team : String
  away_team : String
  commence_time : String
deriving DecidableEq

/-- One raw bookmaker outcome.  `description` and `point` are optional in the
source (read with `.get` and a default); `name` and `price` are read with raw
indexing and raise `KeyError` when absent, hence they are `Option` here and
their absence makes normalization fail. -/
structure Outcome where
  description : Option String
  name : Option String
  point : Option Rat
  price : Option Int
deriving DecidableEq

/-- One market of a bookmaker (`market['key']`, `market.get('last_update')`,
`market.get('outcomes', [])`). -/
structure Market where
  key : String
  last_update : Option String
  outcomes : List Outcome
deriving DecidableEq

/-- One bookmaker of a props response (`bookmaker['title']`,
`bookmaker.get('last_update')`, `bookmaker.get('markets', [])`). -/
structure Bookmaker where
  title : String
  last_update : Option String
  markets : List Market
deriving DecidableEq

/-- A truthy per-event odds response (`props_data.get('bookmakers', [])`). -/
structure PropsData where
  bookmakers : List Bookmaker
deriving DecidableEq

/-- The value stored under `'Line'`: the outcome's `point` when present, the
string sentinel `'N/A'` otherwise (line 255). -/
inductive LineVal where
  | num (x : Rat)
  | na
deriving DecidableEq

/-- The normalized `prop_data` dict built at lines 248-259. -/
structure PropData where
  event_id : String
  game : String
  game_time : String
  category : String
  player : String
  bet_type : String
  line : LineVal
  odds : Int
  bookmaker : String
  last_update : String
deriving DecidableEq

/-- The per-prop record appended to a player's `props` list
(`prop_info`, lines 162-169). -/
structure PropInfo where
  category : String
  bet_type : String
  line : LineVal
  odds : Int
  bookmaker : String
  game : String
deriving DecidableEq

/-- The per-player rollup value of the `unique_players` dict
(lines 150-156): sets of categories, games and bookmakers plus the ordered
props list. -/
structure PlayerData where
  categories : Finset String
  props : List PropInfo
  games : Finset String
  bookmakers : Finset String
deriving DecidableEq

/-- The fresh entry created for a first-seen player (lines 151-156). -/
def emptyPlayerData : PlayerData :=
  { categories := ∅, props := [], games := ∅, bookmakers := ∅ }

/-- The mutation applied to one player's entry by `process_player_data`
(lines 158-172): add the category, append the prop record, add the game and
the bookmaker. -/
def addProp (d : PlayerData) (category : String) (pd : PropData) : PlayerData :=
  { categories := insert category d.categories,
    props := d.props ++ [{ category := category, bet_type := pd.bet_type,
                           line := pd.line, odds := pd.odds,
                           bookmaker := pd.bookmaker, game := pd.game }],
    games := insert pd.game d.games,
    bookmakers := insert pd.bookmaker d.bookmakers }

/-- `OddsAPIExcelFetcher.process_player_data` (lines 146-172) on the
association-list model of the `unique_players` dict: the first entry with the
given name is updated in place; when no entry exists one is created at the
end (Python dicts preserve insertion order and a first assignment appends). -/
def process_player_data : List (String × PlayerData) → String → String → PropData →
    List (String × PlayerData)
  | [], nm, cat, pd => [(nm, addProp emptyPlayerData cat pd)]
  | (n, d) :: rest, nm, cat, pd =>
    if n = nm then (n, addProp d cat pd) :: rest
    else (n, d) :: process_player_data rest nm cat pd

/-- Dict lookup on the association-list model of `unique_players`. -/
def findPlayer : List (String × PlayerData) → String → Option PlayerData
  | [], _ => none
  | (n, d) :: rest, nm => if n = nm then some d else findPlayer rest nm

/-- The mutable state of one `fetch_all_props_to_excel` run: the
`unique_players` dict plus the Over and Under bucket dicts (which always hold
exactly the 12 categories as keys, so they are modelled as total functions
read only at those keys). -/
structure FStat where
  unique_players : List (String × PlayerData)
  over_props : String → List PropData
  under_props : String → List PropData

/-- The reset state at the start of a run (lines 184-187): no players, every
category bucket empty. -/
def initState : FStat :=
  { unique_players := [], over_props := fun _ => [], under_props := fun _ => [] }

/-- Construction of the `prop_data` dict (lines 248-259) once the required
`name` and `price` fields have been read successfully. -/
def mkPropData (ev : Event) (bk_title mk_key last_upd : String)
    (desc : Option String) (nm : String) (pt : Option Rat) (pr : Int) : PropData :=
  { event_id := ev.id,
    game := ev.away_team ++ " @ " ++ ev.home_team,
    game_time := ev.commence_time,
    category := mk_key,
    player := desc.getD "Unknown",
    bet_type := nm,
    line := match pt with | some x => LineVal.num x | none => LineVal.na,
    odds := pr,
    bookmaker := bk_title,
    last_update := last_upd }

/-- Normalization of one raw outcome into `prop_data` (lines 248-259).
Reading `outcome['name']` or `outcome['price']` on a missing field raises
`KeyError`, modelled as `Except.error ()`. -/
def normalizeOutcome (ev : Event) (bk_title mk_key last_upd : String)
    (o : Outcome) : Except Unit PropData :=
  match o.name, o.price with
  | some nm, some pr =>
    Except.ok (mkPropData ev bk_title mk_key last_upd o.description nm o.point pr)
  | _, _ => Except.error ()

/-- Python `str.lower()` as used at lines 267 and 269 on outcome names:
per-character ASCII case folding (the names compared against are plain
ASCII), written over the character list so that it evaluates inside the
kernel. -/
def strLower (s : String) : String :=
  String.mk (s.data.map Char.toLower)

/-- Lines 261-270: feed the normalized prop to `process_player_data`, then
append it to the Over (resp. Under) bucket of `market_key` exactly when
`market_key` is one of the 12 categories and `outcome['name'].lower()` is
`'over'` (resp. `'under'`). -/
def routeProp (st : FStat) (mk_key nm : String) (pd : PropData) : FStat :=
  let st1 : FStat :=
    { st with unique_players := process_player_data st.unique_players pd.player mk_key pd }
  if mk_key ∈ prop_categories then
    if strLower nm = "over" then
      { st1 with over_props :=
          fun c => if c = mk_key then st1.over_props c ++ [pd] else st1.over_props c }
    else if strLower nm = "under" then
      { st1 with under_props :=
          fun c => if c = mk_key then st1.under_props c ++ [pd] else st1.under_props c }
    else st1
  else st1

/-- Processing of a single outcome (lines 247-270): normalize, then route.
A `KeyError` during normalization propagates. -/
def processOutcome (st : FStat) (ev : Event) (bk_title mk_key last_upd : String)
    (o : Outcome) : Except Unit FStat :=
  match normalizeOutcome ev bk_title mk_key last_upd o with
  | Except.ok pd => Except.ok (routeProp st mk_key pd.bet_type pd)
  | Except.error e => Except.error e

/-- The `for outcome in market.get('outcomes', [])` loop (line 247): an
uncaught exception aborts the remaining outcomes. -/
def processOutcomes : FStat → Event → String → String → String → List Outcome →
    Except Unit FStat
  | st, _, _, _, _, [] => Except.ok st
  | st, ev, bt, mk, lu, o :: rest =>
    match processOutcome st ev bt mk lu o with
    | Except.ok st' => processOutcomes st' ev bt mk lu rest
    | Except.error e => Except.error e

/-- One market of one bookmaker (lines 242-270); the `last_update` fallback
chain is `market.get('last_update', bookmaker.get('last_update', ''))`
(line 258). -/
def processMarket (st : FStat) (ev : Event) (bk_title : String)
    (bk_lu : Option String) (m : Market) : Except Unit FStat :=
  processOutcomes st ev bk_title m.key (m.last_update.getD (bk_lu.getD "")) m.outcomes

/-- The `for market in bookmaker.get('markets', [])` loop. -/
def processMarkets : FStat → Event → String → Option String → List Market →
    Except Unit FStat
  | st, _, _, _, [] => Except.ok st
  | st, ev, bt, blu, m :: rest =>
    match processMarket st ev bt blu m with
    | Except.ok st' => processMarkets st' ev bt blu rest
    | Except.error e => Except.error e

/-- The `for bookmaker in props_data.get('bookmakers', [])` loop (line 239). -/
def processBookmakers : FStat → Event → List Bookmaker → Except Unit FStat
  | st, _, [] => Except.ok st
  | st, ev, b :: rest =>
    match processMarkets st ev b.title b.last_update b.markets with
    | Except.ok st' => processBookmakers st' ev rest
    | Except.error e => Except.error e

/-- Lines 235-275: a truthy `props_data` is processed through the nested
loops; a falsy one leaves the state untouched (the `else` branch only
prints). -/
def processEventData (st : FStat) (ev : Event) : Option PropsData → Except Unit FStat
  | some d => processBookmakers st ev d.bookmakers
  | none => Except.ok st

/-- An arbitrary ingestion sequence through `process_player_data`: each item
is the `(player_name, market_key, prop_data)` triple of one call. -/
def ingestAll : List (String × PlayerData) → List (String × String × PropData) →
    List (String × PlayerData)
  | ps, [] => ps
  | ps, (nm, cat, pd) :: rest => ingestAll (process_player_data ps nm cat pd) rest

/-- An arbitrary routing sequence through `routeProp`: each item is the
`(market_key, outcome_name, prop_data)` triple of one normalized outcome
reaching lines 261-270. -/
def routeAll : FStat → List (String × String × PropData) → FStat
  | st, [] => st
  | st, (mk, nm, pd) :: rest => routeAll (routeProp st mk nm pd) rest

/-- The end-of-run quantity `sum(len(bucket) for bucket in over ∪ under)`:
the buckets are the values of the two dicts, whose key set is exactly
`prop_categories`. -/
def totalBucketLen (st : FStat) : Nat :=
  (prop_categories.map fun c => (st.over_props c).length + (st.under_props c).length).sum

/-- Whether a routed prop is recognized: market key among the fixed 12 and
side case-folding to over or under. -/
def recognizedB (mk nm : String) : Bool :=
  decide (mk ∈ prop_categories) && (strLower nm == "over" || strLower nm == "under")

/-- The observable behavior of one `get_event_props` call (lines 124-144)
from the point of view of the retry loop: it returns truthy data
(`returns (some d)`), returns falsy data — the caught
`requests.exceptions.RequestException` path returns `None`, and an empty
response dict is likewise falsy — (`returns none`), or raises an exception
that escapes `get_event_props` (`raises`). -/
inductive FetchOutcome where
  | returns (d : Option PropsData)
  | raises
deriving DecidableEq

/-- Whether an attempt produced truthy data (the `if props_data: break`
condition). -/
def FetchOutcome.isSuccess : FetchOutcome → Bool
  | FetchOutcome.returns (some _) => true
  | _ => false

/-- One observable timing/IO step of the fetch loop: a `get_event_props`
attempt (event index, retry index), the `time.sleep(2)` back-off inside the
retry loop (line 232), or the `time.sleep(delay_between_requests)` rate
delay between events (line 279). -/
inductive TraceEv where
  | attempt (i k : Nat)
  | backoff
  | rateDelay
deriving DecidableEq

/-- `max_retries = 3` (line 221). -/
def max_retries : Nat := 3

/-- The body of the retry loop (lines 224-233), with `fuel` counting the
remaining iterations of `range(max_retries)` and `k` the current `retry`
index.  A truthy return breaks; a falsy return moves on with no sleep (no
exception was raised); a raise sleeps 2 seconds when `retry < max_retries-1`
and moves on. -/
def retryFetchGo (att : Nat → FetchOutcome) (i : Nat) :
    Nat → Nat → Option PropsData × List TraceEv
  | 0, _ => (none, [])
  | fuel + 1, k =>
    match att k with
    | FetchOutcome.returns (some d) => (some d, [TraceEv.attempt i k])
    | FetchOutcome.returns none =>
      let r := retryFetchGo att i fuel (k + 1)
      (r.1, TraceEv.attempt i k :: r.2)
    | FetchOutcome.raises =>
      let r := retryFetchGo att i fuel (k + 1)
      (r.1, TraceEv.attempt i k ::
        (if k < max_retries - 1 then TraceEv.backoff :: r.2 else r.2))

/-- The retry loop for the event at (1-based) position `i`, given the oracle
`att` mapping each retry index to that attempt's outcome. -/
def retryFetch (att : Nat → FetchOutcome) (i : Nat) : Option PropsData × List TraceEv :=
  retryFetchGo att i max_retries 0

/-- The trace block contributed by one event's fetch retries. -/
def blockOf (att : Nat → FetchOutcome) (i : Nat) : List TraceEv :=
  (retryFetch att i).2

/-- One event of a run together with the oracle for its fetch attempts. -/
structure EventInput where
  ev : Event
  attempts : Nat → FetchOutcome

/-- The `for i, event in enumerate(events, 1)` loop of
`fetch_all_props_to_excel` (lines 203-279): fetch with retries, process the
data (an uncaught `KeyError` aborts the run), and sleep the rate delay when
`i < len(events)`.  Returns the final state and the fetch/sleep trace. -/
def fetchAllGo : FStat → Nat → Nat → List EventInput →
    Except Unit (FStat × List TraceEv)
  | st, _, _, [] => Except.ok (st, [])
  | st, n, i, inp :: rest =>
    let r := retryFetch inp.attempts i
    match processEventData st inp.ev r.1 with
    | Except.error e => Except.error e
    | Except.ok st' =>
      match fetchAllGo st' n (i + 1) rest with
      | Except.error e => Except.error e
      | Except.ok (stf, tr) =>
        Except.ok (stf, r.2 ++ (if i < n then [TraceEv.rateDelay] else []) ++ tr)

/-- The event loop of one run over the listed events, starting from the
reset state. -/
def fetch_all (inputs : List EventInput) : Except Unit (FStat × List TraceEv) :=
  fetchAllGo initState inputs.length 1 inputs

/-- The state part of the event loop, ignoring indices and trace: the fold
of `processEventData` over the resolved per-event fetch results. -/
def runStates : FStat → List EventInput → Except Unit FStat
  | st, [] => Except.ok st
  | st, inp :: rest =>
    match processEventData st inp.ev (retryFetch inp.attempts 1).1 with
    | Except.ok st' => runStates st' rest
    | Except.error e => Except.error e

/-- The oracle environment of one `main` invocation (lines 832-883):
the `ODDS_API_KEY` variable, the event listing (`get_mlb_events` returns
`[]` both on a caught request failure and when no games are scheduled), the
per-event fetch oracles, whether `create_excel_workbook` succeeds (the
report-rendering layer is an external collaborator), and the result of
`MLBPropsStatsAnalyzer.run_full_analysis` (whose helper methods are elided
in the source, so its outcome is an oracle). -/
structure MainEnv where
  odds_api_key : Option String
  events : List EventInput
  excel_ok : Bool
  analysis_result : Option String

/-- The filename returned by `fetch_all_props_to_excel` (lines 174-294):
`""` when the event listing is empty (line 193) or when
`create_excel_workbook` raises (line 294); an uncaught processing exception
propagates. -/
def fetch_all_filename (env : MainEnv) (filename : String) : Except Unit String :=
  match env.events with
  | [] => Except.ok ""
  | _ :: _ =>
    match fetch_all env.events with
    | Except.error e => Except.error e
    | Except.ok _ => Except.ok (if env.excel_ok then filename else "")

/-- `main` (lines 832-883) as a function from the environment to the process
exit code: `sys.exit(1)` on a missing key, an empty/failed event listing or
workbook failure (`excel_filename` falsy), or a failed analysis; exit code 0
when every stage succeeds.  `Except.error` models an uncaught exception
(which also terminates the process unsuccessfully). -/
def mainRun (env : MainEnv) : Except Unit Nat :=
  match env.odds_api_key with
  | none => Except.ok 1
  | some _ =>
    match fetch_all_filename env "mlb_props.xlsx" with
    | Except.error e => Except.error e
    | Except.ok fn =>
      if fn ≠ "" then
        match env.analysis_result with
        | some _ => Except.ok 0
        | none => Except.ok 1
      else Except.ok 1

/-- Modelled from the spec: the worker program counter of the stats
enrichment cache.  The bodies of the `MLBPropsStatsAnalyzer` lookup methods
are elided in the source (only `player_stats_cache`, `player_id_cache`,
`game_logs_cache` and `cache_lock` are declared, lines 745-751), so the
check-populate protocol is taken from spec section 4.4: each worker acquires
the single lock, checks the cache for the key, fetches and populates on a
miss, reads the cached value and releases. -/
inductive WPc where
  | idle
  | entered
  | fetching
  | haveVal
  | done
deriving DecidableEq

/-- Modelled from the spec: the shared state for one (player, category) key
under `n` concurrent workers — the cache entry, the holder of `cache_lock`,
the number of upstream stats fetches issued, each worker's program counter
and each worker's received value. -/
structure CacheSt (n : Nat) where
  cache : Option Nat
  lockHolder : Option (Fin n)
  fetchCount : Nat
  pc : Fin n → WPc
  result : Fin n → Option Nat
deriving DecidableEq

/-- Modelled from the spec: the empty-cache initial state (all caches are
rebuilt from empty at the start of each run). -/
def initCache (n : Nat) : CacheSt n :=
  { cache := none, lockHolder := none, fetchCount := 0,
    pc := fun _ => WPc.idle, result := fun _ => none }

/-- Modelled from the spec: one interleaved step of the check-populate
protocol for the key, where `v` is the value the upstream stats fetch
resolves to.  A worker acquires the free lock, checks the cache under the
lock, fetches-and-populates on a miss (counting the upstream call), and
reads the entry and releases on the way out. -/
inductive CacheStep (n : Nat) (v : Nat) : CacheSt n → CacheSt n → Prop where
  | acquire (s : CacheSt n) (i : Fin n)
      (hpc : s.pc i = WPc.idle) (hl : s.lockHolder = none) :
      CacheStep n v s
        { s with lockHolder := some i,
                 pc := fun j => if j = i then WPc.entered else s.pc j }
  | checkMiss (s : CacheSt n) (i : Fin n)
      (hpc : s.pc i = WPc.entered) (hl : s.lockHolder = some i)
      (hc : s.cache = none) :
      CacheStep n v s
        { s with pc := fun j => if j = i then WPc.fetching else s.pc j }
  | checkHit (s : CacheSt n) (i : Fin n) (w : Nat)
      (hpc : s.pc i = WPc.entered) (hl : s.lockHolder = some i)
      (hc : s.cache = some w) :
      CacheStep n v s
        { s with pc := fun j => if j = i then WPc.haveVal else s.pc j }
  | populate (s : CacheSt n) (i : Fin n)
      (hpc : s.pc i = WPc.fetching) (hl : s.lockHolder = some i) :
      CacheStep n v s
        { s with cache := some v, fetchCount := s.fetchCount + 1,
                 pc := fun j => if j = i then WPc.haveVal else s.pc j }
  | readRelease (s : CacheSt n) (i : Fin n)
      (hpc : s.pc i = WPc.haveVal) (hl : s.lockHolder = some i) :
      CacheStep n v s
        { s with result := fun j => if j = i then s.cache else s.result j,
                 lockHolder := none,
                 pc := fun j => if j = i then WPc.done else s.pc j }

/-- Modelled from the spec: the states reachable from the empty cache by any
interleaving of worker steps. -/
inductive CacheReach (n : Nat) (v : Nat) : CacheSt n → Prop where
  | init : CacheReach n v (initCache n)
  | step {s s' : CacheSt n} : CacheReach n v s → CacheStep n v s s' → CacheReach n v s'

/-- The inductive invariant of the check-populate protocol: the fetch count
matches the cache state, workers inside the critical section hold the lock,
a fetching worker sees an empty cache, a worker past its check sees the
resolved value, and a finished worker has received the resolved value. -/
def CacheInv (n : Nat) (v : Nat) (s : CacheSt n) : Prop :=
  (s.cache = none ∧ s.fetchCount = 0 ∨ s.cache = some v ∧ s.fetchCount = 1)
  ∧ (∀ i, s.pc i ≠ WPc.idle → s.pc i ≠ WPc.done → s.lockHolder = some i)
  ∧ (∀ i, s.pc i = WPc.fetching → s.cache = none)
  ∧ (∀ i, s.pc i = WPc.haveVal → s.cache = some v)
  ∧ (∀ i, s.pc i = WPc.done → s.result i = some v ∧ s.cache = some v)

theorem findPlayer_process_self (ps : List (String × PlayerData)) (nm cat : String)
    (pd : PropData) :
    findPlayer (process_player_data ps nm cat pd) nm =
      some (addProp ((findPlayer ps nm).getD emptyPlayerData) cat pd) := by
  induction ps with
  | nil => simp [process_player_data, findPlayer]
  | cons hd tl ih =>
    obtain ⟨n, d⟩ := hd
    by_cases h : n = nm
    · subst h
      simp [process_player_data, findPlayer]
    · simp [process_player_data, findPlayer, h, ih]

theorem findPlayer_process_other (ps : List (String × PlayerData)) (nm cat m : String)
    (pd : PropData) (h : m ≠ nm) :
    findPlayer (process_player_data ps nm cat pd) m = findPlayer ps m := by
  induction ps with
  | nil => simp [process_player_data, findPlayer, Ne.symm h]
  | cons hd tl ih =>
    obtain ⟨n, d⟩ := hd
    by_cases hn : n = nm
    · subst hn
      have : ¬ n = m := fun hh => h hh.symm
      simp [process_player_data, findPlayer, this]
    · by_cases hm : n = m
      · subst hm
        simp [process_player_data, findPlayer, hn]
      · simp [process_player_data, findPlayer, hn, hm, ih]

/-- Length bookkeeping of one `process_player_data` call at the ingested
name: the props list grows by exactly one, duplicate or not. -/
theorem propsLen_process_self (ps : List (String × PlayerData)) (nm cat : String)
    (pd : PropData) :
    ((findPlayer (process_player_data ps nm cat pd) nm).elim 0 fun d => d.props.length) =
      ((findPlayer ps nm).elim 0 fun d => d.props.length) + 1 := by
  rw [findPlayer_process_self]
  cases h : findPlayer ps nm <;> simp [h, addProp, emptyPlayerData]

theorem ingestAll_props_count (l : List (String × String × PropData))
    (ps : List (String × PlayerData)) (nm : String) :
    ((findPlayer (ingestAll ps l) nm).elim 0 fun d => d.props.length) =
      ((findPlayer ps nm).elim 0 fun d => d.props.length) +
        l.countP (fun t => t.1 == nm) := by
  induction l generalizing ps with
  | nil => simp [ingestAll]
  | cons hd tl ih =>
    obtain ⟨hnm, cat, pd⟩ := hd
    rw [ingestAll, ih, List.countP_cons]
    by_cases h : hnm = nm
    · subst h
      rw [propsLen_process_self]
      simp
      omega
    · rw [findPlayer_process_other _ _ _ _ _ (fun hh => h hh.symm)]
      simp [h]

/-- The per-player consistency invariant over the association-list state:
every stored prop's category, game and bookmaker are members of the
corresponding per-player sets. -/
def PlayerConsistent (ps : List (String × PlayerData)) : Prop :=
  ∀ e ∈ ps, ∀ p ∈ e.2.props,
    p.category ∈ e.2.categories ∧ p.game ∈ e.2.games ∧ p.bookmaker ∈ e.2.bookmakers

theorem addProp_consistent (d : PlayerData) (cat : String) (pd : PropData)
    (hd : ∀ p ∈ d.props, p.category ∈ d.categories ∧ p.game ∈ d.games ∧
      p.bookmaker ∈ d.bookmakers) :
    ∀ p ∈ (addProp d cat pd).props,
      p.category ∈ (addProp d cat pd).categories ∧
      p.game ∈ (addProp d cat pd).games ∧
      p.bookmaker ∈ (addProp d cat pd).bookmakers := by
  intro p hp
  simp only [addProp, List.mem_append, List.mem_singleton] at hp
  rcases hp with hp | rfl
  · obtain ⟨h1, h2, h3⟩ := hd p hp
    exact ⟨Finset.mem_insert_of_mem h1, Finset.mem_insert_of_mem h2,
      Finset.mem_insert_of_mem h3⟩
  · exact ⟨Finset.mem_insert_self _ _, Finset.mem_insert_self _ _,
      Finset.mem_insert_self _ _⟩

theorem process_player_data_consistent (ps : List (String × PlayerData))
    (nm cat : String) (pd : PropData) (h : PlayerConsistent ps) :
    PlayerConsistent (process_player_data ps nm cat pd) := by
  induction ps with
  | nil =>
    intro e he
    simp only [process_player_data] at he
    rcases List.mem_singleton.mp he with rfl
    exact addProp_consistent _ _ _ (by simp [emptyPlayerData])
  | cons hd tl ih =>
    obtain ⟨n, d⟩ := hd
    by_cases hn : n = nm
    · subst hn
      simp only [process_player_data, if_pos rfl]
      intro e he
      rcases List.mem_cons.mp he with rfl | he'
      · exact addProp_consistent _ _ _ (h (n, d) (List.mem_cons_self _ _))
      · exact h e (List.mem_cons_of_mem _ he')
    · simp only [process_player_data, if_neg hn]
      intro e he
      rcases List.mem_cons.mp he with rfl | he'
      · exact h (n, d) (List.mem_cons_self _ _)
      · exact ih (fun e' he'' => h e' (List.mem_cons_of_mem _ he'')) e he'

theorem ingestAll_consistent (l : List (String × String × PropData))
    (ps : List (String × PlayerData)) (h : PlayerConsistent ps) :
    PlayerConsistent (ingestAll ps l) := by
  induction l generalizing ps with
  | nil => exact h
  | cons hd tl ih =>
    obtain ⟨nm, cat, pd⟩ := hd
    exact ih _ (process_player_data_consistent _ _ _ _ h)

theorem findPlayer_mem (ps : List (String × PlayerData)) (nm : String)
    (d : PlayerData) (h : findPlayer ps nm = some d) : (nm, d) ∈ ps := by
  induction ps with
  | nil => simp [findPlayer] at h
  | cons hd tl ih =>
    obtain ⟨n, d'⟩ := hd
    by_cases hn : n = nm
    · subst hn
      simp [findPlayer] at h
      subst h
      exact List.mem_cons_self _ _
    · simp [findPlayer, hn] at h
      exact List.mem_cons_of_mem _ (ih h)


theorem sum_map_ite_notmem (L : List String) (k : String) (F : String → Nat)
    (hk : k ∉ L) :
    (L.map fun c => F c + (if c = k then 1 else 0)).sum = (L.map F).sum := by
  induction L with
  | nil => rfl
  | cons a tl ih =>
    have ha : ¬ a = k := fun h => hk (h ▸ List.mem_cons_self a tl)
    have ih' := ih (fun h => hk (List.mem_cons_of_mem _ h))
    simp only [List.map_cons, List.sum_cons, if_neg ha, ih']
    omega

theorem sum_map_add_ite (L : List String) (k : String) (F : String → Nat)
    (hnd : L.Nodup) (hk : k ∈ L) :
    (L.map fun c => F c + (if c = k then 1 else 0)).sum = (L.map F).sum + 1 := by
  induction L with
  | nil => cases hk
  | cons a tl ih =>
    obtain ⟨ha, htl⟩ := List.nodup_cons.mp hnd
    rcases List.mem_cons.mp hk with rfl | hk'
    · rw [List.map_cons, List.map_cons, List.sum_cons, List.sum_cons,
        sum_map_ite_notmem tl _ F ha, if_pos rfl]
      omega
    · have hak : ¬ a = k := fun h => ha (h ▸ hk')
      rw [List.map_cons, List.map_cons, List.sum_cons, List.sum_cons, ih htl hk',
        if_neg hak]
      omega

theorem prop_categories_nodup : prop_categories.Nodup := by decide

theorem sum_bucket_append_left (f g : String → List PropData) (k : String)
    (pd : PropData) (hk : k ∈ prop_categories) :
    (prop_categories.map fun c =>
        (if c = k then f c ++ [pd] else f c).length + (g c).length).sum =
      (prop_categories.map fun c => (f c).length + (g c).length).sum + 1 := by
  have hpt : ∀ c, (if c = k then f c ++ [pd] else f c).length + (g c).length
      = ((f c).length + (g c).length) + (if c = k then 1 else 0) := by
    intro c
    by_cases h : c = k <;> simp [h] <;> omega
  simp only [hpt]
  exact sum_map_add_ite _ _ _ prop_categories_nodup hk

theorem sum_bucket_append_right (f g : String → List PropData) (k : String)
    (pd : PropData) (hk : k ∈ prop_categories) :
    (prop_categories.map fun c =>
        (f c).length + (if c = k then g c ++ [pd] else g c).length).sum =
      (prop_categories.map fun c => (f c).length + (g c).length).sum + 1 := by
  have hpt : ∀ c, (f c).length + (if c = k then g c ++ [pd] else g c).length
      = ((f c).length + (g c).length) + (if c = k then 1 else 0) := by
    intro c
    by_cases h : c = k <;> simp [h] <;> omega
  simp only [hpt]
  exact sum_map_add_ite _ _ _ prop_categories_nodup hk

/-- Reduction of `routeProp` in its four guard cases. -/
theorem routeProp_over (st : FStat) (mk nm : String) (pd : PropData)
    (h1 : mk ∈ prop_categories) (h2 : strLower nm = "over") :
    routeProp st mk nm pd =
      { unique_players := process_player_data st.unique_players pd.player mk pd,
        over_props := fun c => if c = mk then st.over_props c ++ [pd] else st.over_props c,
        under_props := st.under_props } := by
  simp [routeProp, h1, h2]

theorem routeProp_under (st : FStat) (mk nm : String) (pd : PropData)
    (h1 : mk ∈ prop_categories) (h2 : ¬ strLower nm = "over")
    (h3 : strLower nm = "under") :
    routeProp st mk nm pd =
      { unique_players := process_player_data st.unique_players pd.player mk pd,
        over_props := st.over_props,
        under_props := fun c => if c = mk then st.under_props c ++ [pd] else st.under_props c } := by
  simp [routeProp, h1, h2, h3]

theorem routeProp_nobucket (st : FStat) (mk nm : String) (pd : PropData)
    (h : ¬ mk ∈ prop_categories ∨ (¬ strLower nm = "over" ∧ ¬ strLower nm = "under")) :
    routeProp st mk nm pd =
      { unique_players := process_player_data st.unique_players pd.player mk pd,
        over_props := st.over_props,
        under_props := st.under_props } := by
  rcases h with h1 | ⟨h2, h3⟩
  · simp [routeProp, h1]
  · by_cases h1 : mk ∈ prop_categories
    · simp [routeProp, h1, h2, h3]
    · simp [routeProp, h1]

/-- One routing step changes the combined bucket size by exactly one when
the prop is recognized (market key among the 12 and side folding to over or
under) and by nothing otherwise. -/
theorem totalBucketLen_routeProp (st : FStat) (mk nm : String) (pd : PropData) :
    totalBucketLen (routeProp st mk nm pd) =
      totalBucketLen st + (if recognizedB mk nm then 1 else 0) := by
  by_cases h1 : mk ∈ prop_categories
  · by_cases h2 : strLower nm = "over"
    · have hrec : (if recognizedB mk nm then (1 : Nat) else 0) = 1 := by
        simp [recognizedB, h1, h2]
      rw [hrec, routeProp_over st mk nm pd h1 h2]
      exact sum_bucket_append_left _ _ _ _ h1
    · by_cases h3 : strLower nm = "under"
      · have hrec : (if recognizedB mk nm then (1 : Nat) else 0) = 1 := by
          simp [recognizedB, h1, h3]
        rw [hrec, routeProp_under st mk nm pd h1 h2 h3]
        exact sum_bucket_append_right _ _ _ _ h1
      · have hrec : (if recognizedB mk nm then (1 : Nat) else 0) = 0 := by
          simp [recognizedB, h2, h3]
        rw [hrec, routeProp_nobucket st mk nm pd (Or.inr ⟨h2, h3⟩)]
        simp [totalBucketLen]
  · have hrec : (if recognizedB mk nm then (1 : Nat) else 0) = 0 := by
      simp [recognizedB, h1]
    rw [hrec, routeProp_nobucket st mk nm pd (Or.inl h1)]
    simp [totalBucketLen]

theorem totalBucketLen_routeAll (l : List (String × String × PropData)) (st : FStat) :
    totalBucketLen (routeAll st l) =
      totalBucketLen st + l.countP (fun t => recognizedB t.1 t.2.1) := by
  induction l generalizing st with
  | nil => simp [routeAll]
  | cons hd tl ih =>
    obtain ⟨mk, nm, pd⟩ := hd
    rw [routeAll, ih, totalBucketLen_routeProp, List.countP_cons]
    by_cases h : recognizedB mk nm <;> simp [h] <;> omega

/-- C3: a processed outcome's prop record is placed into the Over
(respectively Under) bucket of its category exactly when the side
case-folds to "over" (respectively "under") and the market key is one of
the fixed 12 prop categories; in every case the player aggregate is still
updated through `process_player_data`. -/
theorem claim_C3_bucket_routing (st : FStat) (mk nm : String) (pd : PropData)
    (c : String) :
    ((routeProp st mk nm pd).over_props c =
      if mk ∈ prop_categories ∧ strLower nm = "over" ∧ c = mk
      then st.over_props c ++ [pd] else st.over_props c)
    ∧ ((routeProp st mk nm pd).under_props c =
      if mk ∈ prop_categories ∧ strLower nm = "under" ∧ c = mk
      then st.under_props c ++ [pd] else st.under_props c)
    ∧ (routeProp st mk nm pd).unique_players =
        process_player_data st.unique_players pd.player mk pd := by
  by_cases h1 : mk ∈ prop_categories
  · by_cases h2 : strLower nm = "over"
    · rw [routeProp_over st mk nm pd h1 h2]
      have h3 : ¬ strLower nm = "under" := by rw [h2]; decide
      refine ⟨?_, ?_, rfl⟩
      · by_cases hc : c = mk <;> simp [h1, h2, hc]
      · simp [h3]
    · by_cases h3 : strLower nm = "under"
      · rw [routeProp_under st mk nm pd h1 h2 h3]
        refine ⟨?_, ?_, rfl⟩
        · simp [h2]
        · by_cases hc : c = mk <;> simp [h1, h3, hc]
      · rw [routeProp_nobucket st mk nm pd (Or.inr ⟨h2, h3⟩)]
        refine ⟨?_, ?_, rfl⟩
        · simp [h2]
        · simp [h3]
  · rw [routeProp_nobucket st mk nm pd (Or.inl h1)]
    refine ⟨?_, ?_, rfl⟩
    · simp [h1]
    · simp [h1]

/-- C4: after routing any stream of normalized props from the reset state,
the combined size of all Over and Under buckets is at most the number of
props processed, with equality exactly when every prop had a market key
among the fixed 12 categories and a side case-folding to over or under. -/
theorem claim_C4_bucket_sum (l : List (String × String × PropData)) :
    totalBucketLen (routeAll initState l) ≤ l.length
    ∧ (totalBucketLen (routeAll initState l) = l.length ↔
        ∀ t ∈ l, t.1 ∈ prop_categories ∧
          (strLower t.2.1 = "over" ∨ strLower t.2.1 = "under")) := by
  have h0 : totalBucketLen initState = 0 := by decide
  have h := totalBucketLen_routeAll l initState
  rw [h0, Nat.zero_add] at h
  rw [h]
  constructor
  · exact List.countP_le_length _
  · rw [List.countP_eq_length]
    constructor
    · intro hh t ht
      have := hh t ht
      simpa [recognizedB] using this
    · intro hh t ht
      have := hh t ht
      simpa [recognizedB] using this

/-- A concrete normalized prop record used by the witnesses. -/
def wpd0 : PropData :=
  { event_id := "e1", game := "A @ B", game_time := "t",
    category := "batter_hits", player := "Player X", bet_type := "Over",
    line := LineVal.num 2, odds := -120, bookmaker := "DK", last_update := "" }

theorem claim_C4_witness :
    totalBucketLen (routeAll initState
        [("batter_hits", "Over", wpd0), ("batter_walks", "Over", wpd0)]) = 1
    ∧ totalBucketLen (routeAll initState
        [("batter_hits", "Over", wpd0), ("batter_walks", "Over", wpd0)]) ≤
      ([("batter_hits", "Over", wpd0), ("batter_walks", "Over", wpd0)] :
        List (String × String × PropData)).length :=
  ⟨by decide, (claim_C4_bucket_sum _).1⟩

/-- C5: for every player name, after any ingestion sequence starting from
the reset (empty) state, the stored props-list length equals the number of
ingested props carrying exactly that name — re-ingesting an identical prop
appends another entry, since the count counts duplicates. -/
theorem claim_C5_props_count (l : List (String × String × PropData)) (nm : String) :
    ((findPlayer (ingestAll [] l) nm).elim 0 fun d => d.props.length) =
      l.countP (fun t => t.1 == nm) := by
  have h := ingestAll_props_count l [] nm
  simpa [findPlayer] using h

/-- C10: every prop stored in a player's aggregate has its category, game
and bookmaker contained in that player's respective sets, at every point of
any ingestion sequence from the empty state. -/
theorem claim_C10_player_consistency (l : List (String × String × PropData))
    (nm : String) (d : PlayerData) (p : PropInfo)
    (hfind : findPlayer (ingestAll [] l) nm = some d) (hp : p ∈ d.props) :
    p.category ∈ d.categories ∧ p.game ∈ d.games ∧ p.bookmaker ∈ d.bookmakers := by
  have hinv : PlayerConsistent (ingestAll [] l) :=
    ingestAll_consistent l [] (fun e he => absurd he (List.not_mem_nil e))
  exact hinv (nm, d) (findPlayer_mem _ _ _ hfind) p hp

/-- The aggregate entry built by one ingest of `wpd0`, for the witnesses. -/
def wD0 : PlayerData := addProp emptyPlayerData "batter_hits" wpd0

/-- The prop record stored by that ingest. -/
def wP0 : PropInfo :=
  { category := "batter_hits", bet_type := "Over", line := LineVal.num 2,
    odds := -120, bookmaker := "DK", game := "A @ B" }

theorem claim_C10_witness :
    wP0.category ∈ wD0.categories ∧ wP0.game ∈ wD0.games ∧
      wP0.bookmaker ∈ wD0.bookmakers :=
  claim_C10_player_consistency [("Player X", "batter_hits", wpd0)] "Player X"
    wD0 wP0 (by decide) (by decide)

/-- C6: normalization maps fields positionally and deterministically —
description becomes the player with default "Unknown", name becomes the
side, point becomes the line with sentinel "N/A", price becomes the odds
with no default — and normalizing the same outcome twice yields identical
records. -/
theorem claim_C6_normalizer (ev : Event) (bk mk lu : String) (o : Outcome)
    (nm : String) (pr : Int) (hn : o.name = some nm) (hp : o.price = some pr) :
    ∃ pd, normalizeOutcome ev bk mk lu o = Except.ok pd
      ∧ pd.player = o.description.getD "Unknown"
      ∧ pd.bet_type = nm
      ∧ pd.line = (match o.point with
                   | some x => LineVal.num x
                   | none => LineVal.na)
      ∧ pd.odds = pr
      ∧ normalizeOutcome ev bk mk lu o = normalizeOutcome ev bk mk lu o := by
  refine ⟨mkPropData ev bk mk lu o.description nm o.point pr, ?_, rfl, rfl, rfl, rfl, rfl⟩
  simp [normalizeOutcome, hn, hp]

/-- A complete raw outcome used by the witnesses. -/
def wOutcome : Outcome :=
  { description := some "Player X", name := some "Over",
    point := some 2, price := some (-120) }

/-- The event used by the witnesses. -/
def wEvent : Event :=
  { id := "e1", home_team := "B", away_team := "A", commence_time := "t" }

theorem claim_C6_witness :
    (normalizeOutcome wEvent "DK" "batter_hits" "" wOutcome).map PropData.player =
      Except.ok "Player X" := by
  obtain ⟨pd, h1, h2, -, -, -, -⟩ :=
    claim_C6_normalizer wEvent "DK" "batter_hits" "" wOutcome "Over" (-120) rfl rfl
  rw [h1, Except.map, h2]
  rfl

/-- An outcome missing the required price field. -/
def badOutcome : Outcome :=
  { description := some "Player X", name := some "Over",
    point := some 2, price := none }

/-- A well-formed sibling outcome in the same market. -/
def goodOutcome : Outcome :=
  { description := some "Player X", name := some "Under",
    point := some 2, price := some 100 }

/-- C2 counterexample: a market whose first outcome lacks the price field is
not skipped — processing the outcome list raises (the `KeyError` from
`outcome['price']` propagates), so the well-formed sibling outcome is never
processed and no state results. -/
theorem claim_C2_counterexample :
    (processOutcomes initState wEvent "DK" "batter_hits" "" [badOutcome, goodOutcome]
      = Except.error ())
    ∧ badOutcome.price = none ∧ goodOutcome.price = some 100 := by
  refine ⟨rfl, rfl, rfl⟩

/-- C2 amended: an outcome missing the required name or price field makes
the processing of its market raise, aborting the remaining sibling outcomes
(and the run); an outcome whose name and price are present is normalized
and routed, and processing continues with its siblings (outcomes lacking
only description or point are handled by the defaults inside
normalization). -/
theorem claim_C2_amended (st : FStat) (ev : Event) (bt mk lu : String)
    (o : Outcome) (rest : List Outcome) :
    (o.name = none ∨ o.price = none →
      processOutcomes st ev bt mk lu (o :: rest) = Except.error ())
    ∧ (∀ nm pr, o.name = some nm → o.price = some pr →
        processOutcomes st ev bt mk lu (o :: rest) =
          processOutcomes
            (routeProp st mk nm (mkPropData ev bt mk lu o.description nm o.point pr))
            ev bt mk lu rest) := by
  constructor
  · rintro (h | h)
    · simp [processOutcomes, processOutcome, normalizeOutcome, h]
    · rcases hn : o.name with - | nm
      · simp [processOutcomes, processOutcome, normalizeOutcome, hn]
      · simp [processOutcomes, processOutcome, normalizeOutcome, hn, h]
  · intro nm pr hn hp
    simp [processOutcomes, processOutcome, normalizeOutcome, hn, hp, mkPropData]

theorem claim_C2_witness :
    processOutcomes initState wEvent "DK" "batter_hits" "" [badOutcome, goodOutcome]
      = Except.error () :=
  (claim_C2_amended initState wEvent "DK" "batter_hits" "" badOutcome [goodOutcome]).1
    (Or.inr rfl)

theorem fetch_fail_cases (f : FetchOutcome) (h : f.isSuccess = false) :
    f = FetchOutcome.returns none ∨ f = FetchOutcome.raises := by
  cases f with
  | returns d =>
    cases d with
    | none => exact Or.inl rfl
    | some x => simp [FetchOutcome.isSuccess] at h
  | raises => exact Or.inr rfl

/-- The data component of the retry loop does not depend on the event index
(which only labels the trace). -/
theorem retryFetchGo_fst_index (att : Nat → FetchOutcome) (i j : Nat) :
    ∀ fuel k, (retryFetchGo att i fuel k).1 = (retryFetchGo att j fuel k).1 := by
  intro fuel
  induction fuel with
  | zero => intro k; rfl
  | succ f ih =>
    intro k
    cases h : att k with
    | returns d =>
      cases d with
      | none => simp [retryFetchGo, h, ih]
      | some x => simp [retryFetchGo, h]
    | raises => simp [retryFetchGo, h, ih]

/-- The retry-loop trace never contains the inter-event rate delay. -/
theorem rateDelay_not_in_retryGo (att : Nat → FetchOutcome) (i : Nat) :
    ∀ fuel k, TraceEv.rateDelay ∉ (retryFetchGo att i fuel k).2 := by
  intro fuel
  induction fuel with
  | zero => intro k; simp [retryFetchGo]
  | succ f ih =>
    intro k
    cases h : att k with
    | returns d =>
      cases d with
      | none => simp [retryFetchGo, h]; exact ih (k + 1)
      | some x => simp [retryFetchGo, h]
    | raises =>
      by_cases hk : k < max_retries - 1
      · simp [retryFetchGo, h, hk]; exact ih (k + 1)
      · simp [retryFetchGo, h, hk]; exact ih (k + 1)

/-- When every attempt of the retry budget fails, the loop yields no data
and its trace is the three attempts with a 2-second back-off after an
attempt exactly when that attempt raised (never after the last attempt,
and never after an attempt that merely returned no data). -/
theorem retryFetch_allfail (att : Nat → FetchOutcome) (i : Nat)
    (h : ∀ k, k < max_retries → (att k).isSuccess = false) :
    (retryFetch att i).1 = none
    ∧ (retryFetch att i).2 =
        [TraceEv.attempt i 0]
        ++ (if att 0 = FetchOutcome.raises then [TraceEv.backoff] else [])
        ++ [TraceEv.attempt i 1]
        ++ (if att 1 = FetchOutcome.raises then [TraceEv.backoff] else [])
        ++ [TraceEv.attempt i 2] := by
  have h0 := fetch_fail_cases (att 0) (h 0 (by decide))
  have h1 := fetch_fail_cases (att 1) (h 1 (by decide))
  have h2 := fetch_fail_cases (att 2) (h 2 (by decide))
  rcases h0 with h0 | h0 <;> rcases h1 with h1 | h1 <;> rcases h2 with h2 | h2 <;>
    constructor <;>
    simp [retryFetch, retryFetchGo, max_retries, h0, h1, h2]

/-- The state component of the event loop ignores the event index and trace. -/
theorem fetchAllGo_states (inputs : List EventInput) :
    ∀ (st : FStat) (n i : Nat),
      (fetchAllGo st n i inputs).map Prod.fst = runStates st inputs := by
  induction inputs with
  | nil => intro st n i; rfl
  | cons inp rest ih =>
    intro st n i
    rw [fetchAllGo, runStates]
    rw [show (retryFetch inp.attempts i).1 = (retryFetch inp.attempts 1).1 from
      retryFetchGo_fst_index inp.attempts i 1 max_retries 0]
    cases hP : processEventData st inp.ev (retryFetch inp.attempts 1).1 with
    | error e => rfl
    | ok st' =>
      dsimp only
      cases hR : fetchAllGo st' n (i + 1) rest with
      | error e =>
        have := ih st' n (i + 1)
        rw [hR] at this
        exact this
      | ok p =>
        obtain ⟨stf, tr⟩ := p
        have := ih st' n (i + 1)
        rw [hR] at this
        exact this

/-- An event whose resolved fetch yields no data leaves the run state
untouched: dropping it from the sequence gives the same state evolution. -/
theorem runStates_skip (pre post : List EventInput) (mid : EventInput)
    (h : (retryFetch mid.attempts 1).1 = none) :
    ∀ st : FStat, runStates st (pre ++ mid :: post) = runStates st (pre ++ post) := by
  induction pre with
  | nil =>
    intro st
    simp only [List.nil_append, runStates, h, processEventData]
  | cons a tl ih =>
    intro st
    simp only [List.cons_append, runStates]
    cases hP : processEventData st a.ev (retryFetch a.attempts 1).1 with
    | ok st' => exact ih st'
    | error e => rfl

/-- C1 counterexample: an event whose market fetch fails on every attempt by
returning no data (the caught-`RequestException` path of `get_event_props`)
is retried for the full 3-attempt budget but with NO 2-second back-off
between the attempts — the sleep only happens in the `except` branch, which
is unreachable when `get_event_props` swallows the error and returns
`None`. -/
theorem claim_C1_counterexample :
    (retryFetch (fun _ => FetchOutcome.returns none) 1).1 = none
    ∧ (retryFetch (fun _ => FetchOutcome.returns none) 1).2 =
        [TraceEv.attempt 1 0, TraceEv.attempt 1 1, TraceEv.attempt 1 2]
    ∧ TraceEv.backoff ∉ (retryFetch (fun _ => FetchOutcome.returns none) 1).2 := by
  refine ⟨rfl, rfl, ?_⟩
  decide

/-- C1 amended: an event whose market fetch fails on all attempts is retried
up to 3 attempts, with the fixed 2-second back-off inserted after an attempt
only when that attempt raised an exception (an attempt that merely returns
no data is retried immediately, and no back-off follows the final attempt);
after exhausting the budget the event contributes zero props and processing
continues — the final aggregate state equals that of the run without the
failed event, so every event before and after it still contributes its
props. -/
theorem claim_C1_retry_and_resilience (att : Nat → FetchOutcome)
    (h : ∀ k, k < max_retries → (att k).isSuccess = false) :
    (∀ i, (retryFetch att i).1 = none
      ∧ (retryFetch att i).2 =
          [TraceEv.attempt i 0]
          ++ (if att 0 = FetchOutcome.raises then [TraceEv.backoff] else [])
          ++ [TraceEv.attempt i 1]
          ++ (if att 1 = FetchOutcome.raises then [TraceEv.backoff] else [])
          ++ [TraceEv.attempt i 2])
    ∧ ∀ (pre post : List EventInput) (ev : Event),
        (fetch_all (pre ++ ⟨ev, att⟩ :: post)).map Prod.fst =
          (fetch_all (pre ++ post)).map Prod.fst := by
  constructor
  · intro i
    exact retryFetch_allfail att i h
  · intro pre post ev
    rw [fetch_all, fetch_all, fetchAllGo_states, fetchAllGo_states]
    exact runStates_skip pre post ⟨ev, att⟩ (retryFetch_allfail att 1 h).1 initState

/-- A witness event input whose single fetch attempt succeeds with an empty
bookmaker list. -/
def wIn1 : EventInput :=
  ⟨wEvent, fun _ => FetchOutcome.returns (some { bookmakers := [] })⟩

/-- A second such witness event input. -/
def wIn2 : EventInput :=
  ⟨{ id := "e2", home_team := "D", away_team := "C", commence_time := "t2" },
   fun _ => FetchOutcome.returns (some { bookmakers := [] })⟩

theorem claim_C1_witness :
    (retryFetch (fun _ => FetchOutcome.raises) 1).1 = none
    ∧ (retryFetch (fun _ => FetchOutcome.raises) 1).2 =
        [TraceEv.attempt 1 0] ++ [TraceEv.backoff] ++ [TraceEv.attempt 1 1]
          ++ [TraceEv.backoff] ++ [TraceEv.attempt 1 2]
    ∧ (fetch_all ([wIn1] ++ ⟨wEvent, fun _ => FetchOutcome.raises⟩ :: [wIn2])).map Prod.fst =
        (fetch_all ([wIn1] ++ [wIn2])).map Prod.fst := by
  have h := claim_C1_retry_and_resilience (fun _ => FetchOutcome.raises)
    (fun k _ => rfl)
  refine ⟨(h.1 1).1, ?_, h.2 [wIn1] [wIn2] wEvent⟩
  rw [(h.1 1).2]
  rfl

/-- Trace shape of the event loop on a successful run: each non-final event
contributes its fetch block followed by one rate delay; the final event
(1-based index `i + l.length`, for which `i < len(events)` fails)
contributes its fetch block only. -/
theorem fetchAllGo_trace (l : List EventInput) :
    ∀ (z : EventInput) (st : FStat) (i : Nat) (stf : FStat) (tr : List TraceEv),
      fetchAllGo st (i + l.length) i (l ++ [z]) = Except.ok (stf, tr) →
      tr = ((l.enumFrom i).bind fun p =>
              blockOf p.2.attempts p.1 ++ [TraceEv.rateDelay])
        ++ blockOf z.attempts (i + l.length) := by
  induction l with
  | nil =>
    intro z st i stf tr h
    rw [List.nil_append, fetchAllGo] at h
    cases hP : processEventData st z.ev (retryFetch z.attempts i).1 with
    | error e => rw [hP] at h; cases h
    | ok st' =>
      rw [hP] at h
      dsimp only at h
      rw [show fetchAllGo st' (i + [].length) (i + 1) [] = Except.ok (st', []) from rfl] at h
      simp only [List.length_nil, Nat.add_zero, Nat.lt_irrefl, if_neg,
        List.append_nil, Except.ok.injEq, Prod.mk.injEq] at h
      rw [← h.2]
      simp [blockOf]
  | cons a tl ih =>
    intro z st i stf tr h
    rw [List.cons_append, fetchAllGo] at h
    cases hP : processEventData st a.ev (retryFetch a.attempts i).1 with
    | error e => rw [hP] at h; cases h
    | ok st' =>
      rw [hP] at h
      dsimp only at h
      cases hR : fetchAllGo st' (i + (a :: tl).length) (i + 1) (tl ++ [z]) with
      | error e => rw [hR] at h; cases h
      | ok p =>
        obtain ⟨stf', tr'⟩ := p
        rw [hR] at h
        have hi : i < i + (a :: tl).length := by simp
        have harr : i + (a :: tl).length = (i + 1) + tl.length := by
          simp [List.length_cons]; omega
        rw [harr] at hR
        have htr' := ih z st' (i + 1) stf' tr' hR
        simp only [if_pos hi, Except.ok.injEq, Prod.mk.injEq] at h
        rw [← h.2, htr']
        simp only [List.enumFrom, List.cons_bind, blockOf, harr]
        simp [List.append_assoc]

/-- C7: on a run over a non-empty event list, the rate-limiting delay occurs
exactly once between the trace blocks of successive events and never after
the final event — and never inside a fetch block, so the delays are exactly
the separators between successive event fetches. -/
theorem claim_C7_rate_delay (l : List EventInput) (z : EventInput)
    (stf : FStat) (tr : List TraceEv)
    (h : fetch_all (l ++ [z]) = Except.ok (stf, tr)) :
    tr = ((l.enumFrom 1).bind fun p =>
            blockOf p.2.attempts p.1 ++ [TraceEv.rateDelay])
      ++ blockOf z.attempts (l.length + 1)
    ∧ ∀ (att : Nat → FetchOutcome) (i : Nat), TraceEv.rateDelay ∉ blockOf att i := by
  constructor
  · rw [fetch_all] at h
    have hlen : (l ++ [z]).length = 1 + l.length := by
      simp [List.length_append]
      omega
    rw [hlen] at h
    have := fetchAllGo_trace l z initState 1 stf tr h
    rw [Nat.add_comm 1 l.length] at this
    exact this
  · intro att i
    exact rateDelay_not_in_retryGo att i max_retries 0

theorem claim_C7_witness :
    (fetch_all ([wIn1] ++ [wIn2])).map Prod.snd =
      Except.ok [TraceEv.attempt 1 0, TraceEv.rateDelay, TraceEv.attempt 2 0] := by
  obtain ⟨stf, tr, h⟩ :
      ∃ stf tr, fetch_all ([wIn1] ++ [wIn2]) = Except.ok (stf, tr) := ⟨_, _, rfl⟩
  have hc := (claim_C7_rate_delay [wIn1] wIn2 stf tr h).1
  rw [h, hc]
  rfl

/-- An environment in which the key is present, the listing returns one
event, fetching and workbook creation succeed, and only the downstream
analysis fails. -/
def envC8 : MainEnv :=
  { odds_api_key := some "k", events := [wIn1], excel_ok := true,
    analysis_result := none }

/-- C8 counterexample: with the API key present, a successful non-empty
event listing, successful fetching and a successfully written workbook, a
failure of the analysis stage alone still ends the run with `sys.exit(1)` —
so an error other than the initial event-listing failure IS surfaced as a
run failure, contradicting the claim that all other errors degrade to
partial data. -/
theorem claim_C8_counterexample :
    mainRun envC8 = Except.ok 1
    ∧ envC8.odds_api_key = some "k"
    ∧ envC8.events.length = 1
    ∧ (fetch_all envC8.events).isOk = true
    ∧ envC8.excel_ok = true
    ∧ envC8.analysis_result = none := by
  refine ⟨rfl, rfl, rfl, rfl, rfl, rfl⟩

/-- C8 amended: a missing `ODDS_API_KEY` or an empty/failed event listing
does exit the run unsuccessfully (code 1) with no event processed, but it is
not the only surfaced failure: the run exits 0 exactly when the key is
present, the listing is non-empty, event processing raises no exception,
the workbook is written, and the analysis succeeds — a workbook-creation
failure or an analysis failure also exits 1, and a processing exception
propagates out of `main`. -/
theorem claim_C8_exit_policy (env : MainEnv) :
    ((env.odds_api_key = none ∨ env.events = []) → mainRun env = Except.ok 1)
    ∧ (mainRun env = Except.ok 0 ↔
        env.odds_api_key ≠ none ∧ env.events ≠ [] ∧
        (fetch_all env.events).isOk = true ∧ env.excel_ok = true ∧
        env.analysis_result ≠ none) := by
  obtain ⟨key, events, excel, ar⟩ := env
  constructor
  · rintro (h | h)
    · simp only at h
      subst h
      rfl
    · simp only at h
      subst h
      cases key with
      | none => rfl
      | some k => rfl
  · cases key with
    | none =>
      simp [mainRun]
    | some k =>
      cases events with
      | nil =>
        simp [mainRun, fetch_all_filename]
      | cons e es =>
        cases hfa : fetch_all (e :: es) with
        | error u =>
          simp [mainRun, fetch_all_filename, hfa, Except.isOk, Except.toBool]
        | ok p =>
          cases excel with
          | false =>
            simp [mainRun, fetch_all_filename, hfa, Except.isOk, Except.toBool]
          | true =>
            cases ar with
            | none =>
              simp [mainRun, fetch_all_filename, hfa, Except.isOk, Except.toBool]
            | some s =>
              simp [mainRun, fetch_all_filename, hfa, Except.isOk, Except.toBool]

theorem claim_C8_witness :
    mainRun { odds_api_key := none, events := [], excel_ok := true,
              analysis_result := some "out" } = Except.ok 1 :=
  (claim_C8_exit_policy _).1 (Or.inl rfl)

theorem cacheInv_init (n v : Nat) : CacheInv n v (initCache n) := by
  refine ⟨Or.inl ⟨rfl, rfl⟩, ?_, ?_, ?_, ?_⟩ <;> intro i <;> simp [initCache]

theorem cacheInv_step {n v : Nat} {s s' : CacheSt n} (hs : CacheInv n v s)
    (hstep : CacheStep n v s s') : CacheInv n v s' := by
  obtain ⟨I1, I2, I3, I4, I5⟩ := hs
  cases hstep with
  | acquire i hpc hl =>
    refine ⟨I1, ?_, ?_, ?_, ?_⟩
    · intro j hj1 hj2
      dsimp only at hj1 hj2 ⊢
      by_cases hji : j = i
      · rw [hji]
      · rw [if_neg hji] at hj1 hj2
        exact absurd (I2 j hj1 hj2) (by rw [hl]; exact fun h => Option.noConfusion h)
    · intro j hj
      dsimp only at hj ⊢
      by_cases hji : j = i
      · rw [if_pos hji] at hj; cases hj
      · rw [if_neg hji] at hj
        exact I3 j hj
    · intro j hj
      dsimp only at hj ⊢
      by_cases hji : j = i
      · rw [if_pos hji] at hj; cases hj
      · rw [if_neg hji] at hj
        exact I4 j hj
    · intro j hj
      dsimp only at hj ⊢
      by_cases hji : j = i
      · rw [if_pos hji] at hj; cases hj
      · rw [if_neg hji] at hj
        exact I5 j hj
  | checkMiss i hpc hl hc =>
    refine ⟨I1, ?_, ?_, ?_, ?_⟩
    · intro j hj1 hj2
      dsimp only at hj1 hj2 ⊢
      by_cases hji : j = i
      · rw [hji]; exact hl
      · rw [if_neg hji] at hj1 hj2
        exact I2 j hj1 hj2
    · intro j hj
      dsimp only at hj ⊢
      exact hc
    · intro j hj
      dsimp only at hj ⊢
      by_cases hji : j = i
      · rw [if_pos hji] at hj; cases hj
      · rw [if_neg hji] at hj
        exact I4 j hj
    · intro j hj
      dsimp only at hj ⊢
      by_cases hji : j = i
      · rw [if_pos hji] at hj; cases hj
      · rw [if_neg hji] at hj
        exact I5 j hj
  | checkHit i w hpc hl hc =>
    have hwv : s.cache = some v := by
      rcases I1 with ⟨h1, h2⟩ | ⟨h1, h2⟩
      · rw [h1] at hc; cases hc
      · exact h1
    refine ⟨I1, ?_, ?_, ?_, ?_⟩
    · intro j hj1 hj2
      dsimp only at hj1 hj2 ⊢
      by_cases hji : j = i
      · rw [hji]; exact hl
      · rw [if_neg hji] at hj1 hj2
        exact I2 j hj1 hj2
    · intro j hj
      dsimp only at hj ⊢
      by_cases hji : j = i
      · rw [if_pos hji] at hj; cases hj
      · rw [if_neg hji] at hj
        exact I3 j hj
    · intro j hj
      dsimp only at hj ⊢
      by_cases hji : j = i
      · exact hwv
      · rw [if_neg hji] at hj
        exact I4 j hj
    · intro j hj
      dsimp only at hj ⊢
      by_cases hji : j = i
      · rw [if_pos hji] at hj; cases hj
      · rw [if_neg hji] at hj
        exact I5 j hj
  | populate i hpc hl =>
    have hcnone : s.cache = none := I3 i hpc
    have hcnt : s.fetchCount = 0 := by
      rcases I1 with ⟨h1, h2⟩ | ⟨h1, h2⟩
      · exact h2
      · rw [h1] at hcnone; cases hcnone
    refine ⟨Or.inr ⟨rfl, by dsimp only; rw [hcnt]⟩, ?_, ?_, ?_, ?_⟩
    · intro j hj1 hj2
      dsimp only at hj1 hj2 ⊢
      by_cases hji : j = i
      · rw [hji]; exact hl
      · rw [if_neg hji] at hj1 hj2
        exact I2 j hj1 hj2
    · intro j hj
      dsimp only at hj ⊢
      by_cases hji : j = i
      · rw [if_pos hji] at hj; cases hj
      · rw [if_neg hji] at hj
        have h2 := I2 j (by rw [hj]; exact fun h => WPc.noConfusion h)
          (by rw [hj]; exact fun h => WPc.noConfusion h)
        rw [hl] at h2
        exact absurd (Option.some.inj h2).symm hji
    · intro j hj
      dsimp only
    · intro j hj
      dsimp only at hj ⊢
      by_cases hji : j = i
      · rw [if_pos hji] at hj; cases hj
      · rw [if_neg hji] at hj
        exact ⟨(I5 j hj).1, rfl⟩
  | readRelease i hpc hl =>
    have hcv : s.cache = some v := I4 i hpc
    refine ⟨I1, ?_, ?_, ?_, ?_⟩
    · intro j hj1 hj2
      dsimp only at hj1 hj2 ⊢
      by_cases hji : j = i
      · rw [if_pos hji] at hj2
        exact absurd rfl hj2
      · rw [if_neg hji] at hj1 hj2
        have h2 := I2 j hj1 hj2
        rw [hl] at h2
        exact absurd (Option.some.inj h2).symm hji
    · intro j hj
      dsimp only at hj ⊢
      by_cases hji : j = i
      · rw [if_pos hji] at hj; cases hj
      · rw [if_neg hji] at hj
        exact I3 j hj
    · intro j hj
      dsimp only at hj ⊢
      by_cases hji : j = i
      · rw [if_pos hji] at hj; cases hj
      · rw [if_neg hji] at hj
        exact I4 j hj
    · intro j hj
      dsimp only at hj ⊢
      by_cases hji : j = i
      · rw [if_pos hji]
        exact ⟨hcv, hcv⟩
      · rw [if_neg hji] at hj
        rw [if_neg hji]
        exact I5 j hj

theorem cacheInv_reach {n v : Nat} {s : CacheSt n} (h : CacheReach n v s) :
    CacheInv n v s := by
  induction h with
  | init => exact cacheInv_init n v
  | step hr hstep ih => exact cacheInv_step ih hstep

/-- C9: under any interleaving of `n` concurrent workers on the same
(player, category) key starting from the empty cache, once every worker has
finished the upstream stats fetch has been invoked exactly once and every
worker received the same resolved value — the lock-guarded check-populate
sequence admits at most one fetch for the key. -/
theorem claim_C9_single_fetch (n v : Nat) (s : CacheSt n)
    (hreach : CacheReach n v s) (hdone : ∀ i, s.pc i = WPc.done) (hn : 0 < n) :
    s.fetchCount = 1 ∧ ∀ i, s.result i = some v := by
  obtain ⟨I1, I2, I3, I4, I5⟩ := cacheInv_reach hreach
  obtain ⟨hres, hcache⟩ := I5 ⟨0, hn⟩ (hdone ⟨0, hn⟩)
  refine ⟨?_, fun i => (I5 i (hdone i)).1⟩
  rcases I1 with ⟨h1, h2⟩ | ⟨h1, h2⟩
  · rw [h1] at hcache; cases hcache
  · exact h2

/-- The interleaving used by the C9 witness: worker 0 runs the whole
check-populate sequence, then worker 1 acquires, hits the populated entry
and reads it.  Each definition is the exact successor state produced by the
corresponding `CacheStep` constructor. -/
def wC9s1 : CacheSt 2 :=
  { initCache 2 with
    lockHolder := some 0,
    pc := fun j => if j = 0 then WPc.entered else (initCache 2).pc j }

def wC9s2 : CacheSt 2 :=
  { wC9s1 with pc := fun j => if j = 0 then WPc.fetching else wC9s1.pc j }

def wC9s3 : CacheSt 2 :=
  { wC9s2 with
    cache := some 5,
    fetchCount := wC9s2.fetchCount + 1,
    pc := fun j => if j = 0 then WPc.haveVal else wC9s2.pc j }

def wC9s4 : CacheSt 2 :=
  { wC9s3 with
    result := fun j => if j = 0 then wC9s3.cache else wC9s3.result j,
    lockHolder := none,
    pc := fun j => if j = 0 then WPc.done else wC9s3.pc j }

def wC9s5 : CacheSt 2 :=
  { wC9s4 with
    lockHolder := some 1,
    pc := fun j => if j = 1 then WPc.entered else wC9s4.pc j }

def wC9s6 : CacheSt 2 :=
  { wC9s5 with pc := fun j => if j = 1 then WPc.haveVal else wC9s5.pc j }

def wC9s7 : CacheSt 2 :=
  { wC9s6 with
    result := fun j => if j = 1 then wC9s6.cache else wC9s6.result j,
    lockHolder := none,
    pc := fun j => if j = 1 then WPc.done else wC9s6.pc j }

theorem wC9_reach : CacheReach 2 5 wC9s7 := by
  have h1 : CacheReach 2 5 wC9s1 :=
    CacheReach.step CacheReach.init (CacheStep.acquire (initCache 2) 0 rfl rfl)
  have h2 : CacheReach 2 5 wC9s2 :=
    CacheReach.step h1 (CacheStep.checkMiss wC9s1 0 rfl rfl rfl)
  have h3 : CacheReach 2 5 wC9s3 :=
    CacheReach.step h2 (CacheStep.populate wC9s2 0 rfl rfl)
  have h4 : CacheReach 2 5 wC9s4 :=
    CacheReach.step h3 (CacheStep.readRelease wC9s3 0 rfl rfl)
  have h5 : CacheReach 2 5 wC9s5 :=
    CacheReach.step h4 (CacheStep.acquire wC9s4 1 rfl rfl)
  have h6 : CacheReach 2 5 wC9s6 :=
    CacheReach.step h5 (CacheStep.checkHit wC9s5 1 5 rfl rfl rfl)
  exact CacheReach.step h6 (CacheStep.readRelease wC9s6 1 rfl rfl)

theorem claim_C9_witness :
    wC9s7.fetchCount = 1 ∧ wC9s7.result 0 = some 5 ∧ wC9s7.result 1 = some 5 := by
  have h := claim_C9_single_fetch 2 5 wC9s7 wC9_reach (by decide) (by decide)
  exact ⟨h.1, h.2 0, h.2 1⟩
